import Mathlib

/-!
# NutriHelp API server: temporary-file cleanup, directory setup, final error handler

A shallow embedding of the parts of `server.js` that carry behaviour of their own:

* the `existsSync` / `mkdirSync(…, { recursive: true })` blocks that establish
  `uploads` and `uploads/temp` (lines 18-38),
* `cleanupOldFiles` (lines 41-71),
* the final Express error handler (lines 165-177).

Filesystem calls are modelled by explicit state passing.  A call that throws in
Node returns `Except.error`; every `try { … } catch` of the source is a `match`
on that result.  Times are integers in milliseconds.
-/

namespace NutriHelp

/-! ## JavaScript values -/

/-- The JavaScript values that the modelled code handles: what a call evaluates
to, and what an error's `status` and `message` can hold.  A number is an
integer or `NaN`. -/
inductive JSValue where
  | undefined
  | null
  | bool (b : Bool)
  | number (n : Int)
  | nan
  | string (s : String)
  | object
  deriving DecidableEq, Repr

/-- JavaScript truthiness. -/
def JSValue.truthy : JSValue → Bool
  | .undefined => false
  | .null => false
  | .bool b => b
  | .number n => n != 0
  | .nan => false
  | .string s => s != ""
  | .object => true

/-- The operator `a || b`. -/
def JSValue.or (a b : JSValue) : JSValue := if a.truthy then a else b

/-! ## Filesystem model used by `cleanupOldFiles` -/

/-- Errors thrown by the `fs` calls. -/
inductive FsError where
  | ENOENT
  | EACCES
  deriving DecidableEq, Repr

/-- One entry of the temp directory: its file name and `stats.mtimeMs`. -/
structure Entry where
  name : String
  mtimeMs : Int
  deriving DecidableEq, Repr

/-- The temp directory: the entries in the order `readdirSync` lists them. -/
abbrev Dir := List Entry

/-- Which filesystem calls fail during a cycle: the listing of the directory,
and per file name `statSync` and `unlinkSync`. -/
structure Faults where
  readdir : Bool
  stat : String → Bool
  unlink : String → Bool

/-- A cycle in which no filesystem call fails. -/
def noFaults : Faults := ⟨false, fun _ => false, fun _ => false⟩

/-- Lines written to the console by `cleanupOldFiles`. -/
inductive LogLine where
  | checking (n : Nat)
  | errorChecking (file : String) (err : FsError)
  | cleanedUp (n : Nat)
  | errorDuringCleanup (err : FsError)
  deriving DecidableEq, Repr

/-- `fs.readdirSync(tempDir)`: the names of the entries, or a throw. -/
def readdirSync (f : Faults) (dir : Dir) : Except FsError (List String) :=
  if f.readdir then .error .EACCES else .ok (dir.map Entry.name)

/-- `fs.statSync(filePath)`: the entry of that name in the current directory;
throws when the call is refused or no such entry exists. -/
def statSync (f : Faults) (dir : Dir) (file : String) : Except FsError Entry :=
  if f.stat file then .error .EACCES
  else match dir.find? (fun e => e.name == file) with
    | some e => .ok e
    | none => .error .ENOENT

/-- `fs.unlinkSync(filePath)`: the directory without that name; throws when the
call is refused or no such entry exists. -/
def unlinkSync (f : Faults) (dir : Dir) (file : String) : Except FsError Dir :=
  if f.unlink file then .error .EACCES
  else if dir.any (fun e => e.name == file) then
    .ok (dir.filter (fun e => e.name != file))
  else .error .ENOENT

/-- `const ONE_DAY = 24 * 60 * 60 * 1000`. -/
def ONE_DAY : Int := 24 * 60 * 60 * 1000

/-- What an observer of a cycle sees: the directory and the console output it
leaves behind, and a trace of the block-scoped counter `deletedCount`, that is
the number of times line 58 ran (0 when the listing threw before the counter
was declared).  The counter is not handed to the caller, see
`cleanupOldFilesReturn`. -/
structure CleanupState where
  dir : Dir
  console : List LogLine
  deletedCount : Nat
  deriving DecidableEq, Repr

/-- The `try` block inside the `forEach` callback (lines 54-59). -/
def cleanupFileTry (f : Faults) (now : Int) (s : CleanupState) (file : String) :
    Except FsError CleanupState :=
  match statSync f s.dir file with
  | .error err => .error err
  | .ok stats =>
    if now - stats.mtimeMs > ONE_DAY then
      match unlinkSync f s.dir file with
      | .error err => .error err
      | .ok dir => .ok { s with dir := dir, deletedCount := s.deletedCount + 1 }
    else .ok s

/-- The `forEach` callback (lines 51-63): the `try` block with its `catch`,
which logs the error and lets the loop go on. -/
def cleanupFile (f : Faults) (now : Int) (s : CleanupState) (file : String) :
    CleanupState :=
  match cleanupFileTry f now s file with
  | .ok s1 => s1
  | .error err => { s with console := s.console ++ [.errorChecking file err] }

/-- The outer `try` block (lines 47-67). -/
def cleanupTry (f : Faults) (now : Int) (dir : Dir) (console : List LogLine) :
    Except FsError CleanupState :=
  match readdirSync f dir with
  | .error err => .error err
  | .ok tempFiles =>
    let s0 : CleanupState :=
      { dir := dir, console := console ++ [.checking tempFiles.length], deletedCount := 0 }
    let s1 := tempFiles.foldl (cleanupFile f now) s0
    if s1.deletedCount > 0 then
      .ok { s1 with console := s1.console ++ [.cleanedUp s1.deletedCount] }
    else .ok s1

/-- The effects of `cleanupOldFiles()` run at time `now = Date.now()` on the temp
directory `dir`: the outer `try` with its `catch`.  `Except.error` would be an
exception reaching the caller.  The listing is the only call of the outer block
that can throw, so its `catch` runs on the directory as it was. -/
def cleanupOldFiles (f : Faults) (now : Int) (dir : Dir) : Except FsError CleanupState :=
  match cleanupTry f now dir [] with
  | .ok s => .ok s
  | .error err =>
    .ok { dir := dir, console := [.errorDuringCleanup err], deletedCount := 0 }

/-- The value of the call expression `cleanupOldFiles()`.  The body ends after
the outer `try`/`catch` without a `return` statement, and `deletedCount` is a
`let` of the `try` block, so a call that completes evaluates to `undefined`. -/
def cleanupOldFilesReturn (f : Faults) (now : Int) (dir : Dir) : Except FsError JSValue :=
  match cleanupOldFiles f now dir with
  | .ok _ => .ok .undefined
  | .error err => .error err

/-- The cycle unlinks this entry when it visits it: `statSync` and `unlinkSync`
work on it and it is older than `ONE_DAY`. -/
def unlinked (f : Faults) (now : Int) (e : Entry) : Bool :=
  !f.stat e.name && decide (now - e.mtimeMs > ONE_DAY) && !f.unlink e.name

/-- The cycle removes this entry: the listing works and the visit unlinks it. -/
def removed (f : Faults) (now : Int) (e : Entry) : Bool :=
  !f.readdir && unlinked f now e

/-- Milliseconds in `h` hours. -/
def hours (h : Int) : Int := h * 60 * 60 * 1000

/-- The directory of the scenario at time `now`: `a` is 25 hours old, `b` 23
hours, `c` exactly 24 hours. -/
def scenarioDir (now : Int) : Dir :=
  [⟨"a", now - hours 25⟩, ⟨"b", now - hours 23⟩, ⟨"c", now - hours 24⟩]

/-- A cycle in which `unlinkSync` fails on the file `locked` and no other call
fails. -/
def unlinkFailsOn (locked : String) : Faults :=
  ⟨false, fun _ => false, fun file => file == locked⟩

/-- A directory whose first entry cannot be unlinked; both entries are old. -/
def lockedFirstDir : Dir := [⟨"locked", 0⟩, ⟨"old", 0⟩]

/-! ## Directory setup (lines 18-38) -/

/-- A directory path: its components below the root. -/
abbrev DirPath := List String

/-- `path.join(base, seg₁, …)` on plain segment names. -/
def pathJoin (base : DirPath) (segs : List String) : DirPath := base ++ segs

/-- Lines written to the console by the setup blocks. -/
inductive SetupLog where
  | created (what : String)
  | errorCreating (what : String) (err : FsError)
  deriving DecidableEq, Repr

/-- The directories that exist, and the console output of the setup blocks. -/
structure SetupState where
  dirs : List DirPath
  console : List SetupLog
  deriving DecidableEq, Repr

/-- `fs.existsSync(p)`. -/
def existsSync (dirs : List DirPath) (p : DirPath) : Bool := dirs.contains p

/-- The walk of `mkdirSync(…, { recursive: true })` down the chain `qs` of
directories leading to the target: a directory already there is passed, a
missing one is created unless the filesystem refuses, and a refusal throws and
leaves in place what was created before it. -/
def mkdirChain (refused : DirPath → Bool) :
    List DirPath → List DirPath → List DirPath × Except FsError Unit
  | [], dirs => (dirs, .ok ())
  | q :: qs, dirs =>
    if dirs.contains q then mkdirChain refused qs dirs
    else if refused q then (dirs, .error .EACCES)
    else mkdirChain refused qs (dirs ++ [q])

/-- `fs.mkdirSync(p, { recursive: true })`: the walk over `p` and all of its
ancestors, the root first. -/
def mkdirSyncRecursive (refused : DirPath → Bool) (dirs : List DirPath) (p : DirPath) :
    List DirPath × Except FsError Unit :=
  mkdirChain refused p.inits dirs

/-- One setup block: `if (!fs.existsSync(p)) { try { fs.mkdirSync(p, { recursive:
true }); console.log(…) } catch (err) { console.error(…) } }`.  `Except.error`
would be an exception leaving the block. -/
def ensureDirectory (refused : DirPath → Bool) (what : String) (s : SetupState)
    (p : DirPath) : Except FsError SetupState :=
  if existsSync s.dirs p then .ok s
  else
    match mkdirSyncRecursive refused s.dirs p with
    | (dirs, .ok ()) => .ok { dirs := dirs, console := s.console ++ [.created what] }
    | (dirs, .error err) =>
      .ok { dirs := dirs, console := s.console ++ [.errorCreating what err] }

/-- `const uploadsDir = path.join(__dirname, 'uploads')`. -/
def uploadsDir (dirname : DirPath) : DirPath := pathJoin dirname ["uploads"]

/-- `const tempDir = path.join(__dirname, 'uploads', 'temp')`. -/
def tempDir (dirname : DirPath) : DirPath := pathJoin dirname ["uploads", "temp"]

/-- Lines 18-38: the block for `uploadsDir`, then the block for `tempDir`. -/
def setupDirectories (refused : DirPath → Bool) (dirname : DirPath) (s : SetupState) :
    Except FsError SetupState :=
  match ensureDirectory refused "uploads" s (uploadsDir dirname) with
  | .error err => .error err
  | .ok s1 => ensureDirectory refused "temp uploads" s1 (tempDir dirname)

/-- The set of directories contains the ancestors of each of its members. -/
def ParentClosed (dirs : List DirPath) : Prop :=
  ∀ p ∈ dirs, ∀ q ∈ p.inits, q ∈ dirs

/-- A filesystem on which only the root directory exists; nothing printed yet. -/
def rootOnly : SetupState := { dirs := [[]], console := [] }

/-- A filesystem that refuses nothing. -/
def refusesNothing : DirPath → Bool := fun _ => false

/-! ## Final error handler (lines 165-177) -/

/-- The error passed to the handler, as far as the handler reads it. -/
structure ErrorObject where
  status : JSValue
  message : JSValue
  deriving DecidableEq, Repr

/-- The object given to `res.json`. -/
structure ErrorBody where
  success : Bool
  error : JSValue
  timestamp : String
  deriving DecidableEq, Repr

/-- What the handler sends: the argument of `res.status` and of `res.json`. -/
structure ErrorResponse where
  status : JSValue
  body : ErrorBody
  deriving DecidableEq, Repr

/-- The final error handler; `nodeEnv` is `process.env.NODE_ENV` and
`timestamp` is `new Date().toISOString()`. -/
def finalErrorHandler (nodeEnv : Option String) (timestamp : String) (err : ErrorObject) :
    ErrorResponse :=
  let status := JSValue.or err.status (.number 500)
  let message :=
    if nodeEnv = some "production" then JSValue.string "Internal Server Error"
    else err.message
  { status := status, body := { success := false, error := message, timestamp := timestamp } }

/-! ## Lemmas on the filesystem model -/

theorem find_of_mem_nodup {d : Dir} {e : Entry} (hn : (d.map Entry.name).Nodup)
    (he : e ∈ d) : d.find? (fun x => x.name == e.name) = some e := by
  induction d with
  | nil => simp at he
  | cons a t ih =>
    simp only [List.map_cons, List.nodup_cons, List.mem_map, not_exists, not_and] at hn
    rcases List.mem_cons.1 he with h | h
    · subst h; simp [List.find?]
    · have hne : a.name ≠ e.name := fun hc => hn.1 e h hc.symm
      have hb : (a.name == e.name) = false := by simpa using hne
      rw [List.find?_cons, hb]
      exact ih hn.2 h

theorem statSync_of_mem (f : Faults) {d : Dir} {e : Entry}
    (hn : (d.map Entry.name).Nodup) (he : e ∈ d) :
    statSync f d e.name = if f.stat e.name then .error .EACCES else .ok e := by
  simp [statSync, find_of_mem_nodup hn he]

theorem unlinkSync_of_mem (f : Faults) {d : Dir} {e : Entry} (he : e ∈ d) :
    unlinkSync f d e.name =
      if f.unlink e.name then .error .EACCES
      else .ok (d.filter (fun x => x.name != e.name)) := by
  have h : d.any (fun x => x.name == e.name) = true :=
    List.any_eq_true.2 ⟨e, he, by simp⟩
  simp [unlinkSync, h]

theorem name_inj_of_nodup {d : Dir} (hn : (d.map Entry.name).Nodup) {x y : Entry}
    (hx : x ∈ d) (hy : y ∈ d) (h : x.name = y.name) : x = y :=
  List.inj_on_of_nodup_map hn hx hy h

/-- One visit of the `forEach` callback to an entry of the directory. -/
theorem cleanupFile_of_mem (f : Faults) (now : Int) (s : CleanupState) {e : Entry}
    (hn : (s.dir.map Entry.name).Nodup) (he : e ∈ s.dir) :
    (cleanupFile f now s e.name).dir =
        (if unlinked f now e then s.dir.filter (fun x => x.name != e.name) else s.dir) ∧
      (cleanupFile f now s e.name).deletedCount =
        s.deletedCount + (if unlinked f now e then 1 else 0) := by
  unfold cleanupFile cleanupFileTry unlinked
  rw [statSync_of_mem f hn he, unlinkSync_of_mem f he]
  by_cases h1 : f.stat e.name = true <;> by_cases h2 : now - e.mtimeMs > ONE_DAY <;>
    by_cases h3 : f.unlink e.name = true <;> simp [h1, h2, h3]

/-- The `forEach` loop over entries `todo` that are all in the directory. -/
theorem foldl_cleanupFile (f : Faults) (now : Int) :
    ∀ (todo : List Entry) (s : CleanupState), (s.dir.map Entry.name).Nodup →
      (todo.map Entry.name).Nodup → (∀ e ∈ todo, e ∈ s.dir) →
      ((todo.map Entry.name).foldl (cleanupFile f now) s).dir =
          s.dir.filter (fun x => !(decide (x ∈ todo) && unlinked f now x)) ∧
        ((todo.map Entry.name).foldl (cleanupFile f now) s).deletedCount =
          s.deletedCount + todo.countP (unlinked f now) := by
  intro todo
  induction todo with
  | nil => intro s _ _ _; simp
  | cons e rest ih =>
    intro s hn ht hsub
    have he : e ∈ s.dir := hsub e (List.mem_cons_self _ _)
    obtain ⟨hd, hc⟩ := cleanupFile_of_mem f now s hn he
    simp only [List.map_cons, List.nodup_cons, List.mem_map, not_exists, not_and] at ht
    have hsubl : ((cleanupFile f now s e.name).dir).Sublist s.dir := by
      rw [hd]; split
      · exact List.filter_sublist _
      · exact List.Sublist.refl _
    have hn1 : ((cleanupFile f now s e.name).dir.map Entry.name).Nodup :=
      List.Nodup.sublist (List.Sublist.map _ hsubl) hn
    have hsub1 : ∀ x ∈ rest, x ∈ (cleanupFile f now s e.name).dir := by
      intro x hx
      have hxs : x ∈ s.dir := hsub x (List.mem_cons_of_mem _ hx)
      rw [hd]; split
      · exact List.mem_filter.2 ⟨hxs, by simpa using ht.1 x hx⟩
      · exact hxs
    obtain ⟨ihd, ihc⟩ := ih (cleanupFile f now s e.name) hn1 ht.2 hsub1
    simp only [List.map_cons, List.foldl_cons]
    refine ⟨?_, ?_⟩
    · rw [ihd, hd]
      by_cases hu : unlinked f now e = true
      · simp only [hu, if_true, List.filter_filter]
        apply List.filter_congr
        intro x hx
        by_cases hxe : x = e
        · subst hxe; simp [hu]
        · have hne : x.name ≠ e.name := fun h => hxe (name_inj_of_nodup hn hx he h)
          simp [hxe, hne]
      · simp only [hu, if_false]
        apply List.filter_congr
        intro x _
        by_cases hxe : x = e
        · subst hxe; simp [hu]
        · simp [hxe]
    · rw [ihc, hc, List.countP_cons]
      by_cases hu : unlinked f now e = true
      · simp [hu]; omega
      · simp [hu]

theorem removed_of_readdir_fails (f : Faults) (now : Int) (hr : f.readdir = true) :
    removed f now = fun _ => false := by
  funext x; simp [removed, hr]

theorem removed_of_readdir_ok (f : Faults) (now : Int) (hr : f.readdir = false) :
    removed f now = unlinked f now := by
  funext x; simp [removed, hr]

/-- The `forEach` callback prints no "Cleaned up" line. -/
theorem cleanupFile_console (f : Faults) (now : Int) (s : CleanupState) (file : String)
    (h : ∀ n, LogLine.cleanedUp n ∉ s.console) :
    ∀ n, LogLine.cleanedUp n ∉ (cleanupFile f now s file).console := by
  intro n
  unfold cleanupFile cleanupFileTry
  cases statSync f s.dir file with
  | error err => simpa using h n
  | ok stats =>
    by_cases hage : now - stats.mtimeMs > ONE_DAY
    · cases hu : unlinkSync f s.dir file with
      | error err => simpa [hage, hu] using h n
      | ok dir => simpa [hage, hu] using h n
    · simpa [hage] using h n

/-- The `forEach` loop prints no "Cleaned up" line. -/
theorem foldl_cleanupFile_console (f : Faults) (now : Int) :
    ∀ (files : List String) (s : CleanupState), (∀ n, LogLine.cleanedUp n ∉ s.console) →
      ∀ n, LogLine.cleanedUp n ∉ (files.foldl (cleanupFile f now) s).console := by
  intro files
  induction files with
  | nil => intro s h; exact h
  | cons a t ih =>
    intro s h
    exact ih (cleanupFile f now s a) (cleanupFile_console f now s a h)

/-- What a cycle computes on a directory with unique names. -/
theorem cleanupOldFiles_eq (f : Faults) (now : Int) (d : Dir)
    (hn : (d.map Entry.name).Nodup) :
    ∃ s, cleanupOldFiles f now d = .ok s ∧
      s.dir = d.filter (fun x => !removed f now x) ∧
      s.deletedCount = d.countP (removed f now) ∧
      (0 < s.deletedCount → LogLine.cleanedUp s.deletedCount ∈ s.console) ∧
      (s.deletedCount = 0 → ∀ n, LogLine.cleanedUp n ∉ s.console) := by
  by_cases hr : f.readdir = true
  · refine ⟨{ dir := d, console := [.errorDuringCleanup .EACCES], deletedCount := 0 },
      ?_, ?_, ?_, ?_, ?_⟩
    · simp [cleanupOldFiles, cleanupTry, readdirSync, hr]
    · simp [removed, hr]
    · simp [removed_of_readdir_fails f now hr]
    · simp
    · simp
  · have hr0 : f.readdir = false := by simpa using hr
    obtain ⟨hd, hc⟩ := foldl_cleanupFile f now d
      { dir := d, console := [] ++ [.checking (d.map Entry.name).length], deletedCount := 0 }
      hn hn (fun e he => he)
    obtain ⟨s1, hs1⟩ : ∃ s1, s1 = (d.map Entry.name).foldl (cleanupFile f now)
        { dir := d, console := [] ++ [.checking (d.map Entry.name).length],
          deletedCount := 0 } := ⟨_, rfl⟩
    rw [← hs1] at hd hc
    have hd1 : s1.dir = d.filter (fun x => !removed f now x) := by
      rw [hd]
      apply List.filter_congr
      intro x hx
      simp [removed, hr0, hx]
    have hc1 : s1.deletedCount = d.countP (removed f now) := by
      rw [hc, removed_of_readdir_ok f now hr0]
      simp
    have hrun : cleanupOldFiles f now d = .ok
        (if s1.deletedCount > 0 then
          { s1 with console := s1.console ++ [.cleanedUp s1.deletedCount] } else s1) := by
      simp only [cleanupOldFiles, cleanupTry, readdirSync, hr0, Bool.false_eq_true, if_false]
      rw [← hs1]
      split_ifs <;> rfl
    have hcons : ∀ n, LogLine.cleanedUp n ∉ s1.console := by
      rw [hs1]
      exact foldl_cleanupFile_console f now _ _ (by simp)
    by_cases hpos : s1.deletedCount > 0
    · rw [if_pos hpos] at hrun
      exact ⟨_, hrun, hd1, hc1, fun _ => by simp, fun h0 => absurd h0 (by
        show s1.deletedCount ≠ 0
        omega)⟩
    · rw [if_neg hpos] at hrun
      exact ⟨_, hrun, hd1, hc1, fun h => absurd h hpos, fun _ => hcons⟩

theorem mem_filter_removed (f : Faults) (now : Int) (d : Dir) (e : Entry) :
    e ∈ d.filter (fun x => !removed f now x) ↔ e ∈ d ∧ removed f now e = false := by
  simp [List.mem_filter]

theorem name_not_mem_of_removed (f : Faults) (now : Int) {d : Dir}
    (hn : (d.map Entry.name).Nodup) {e : Entry} (he : e ∈ d)
    (hr : removed f now e = true) :
    e.name ∉ (d.filter (fun x => !removed f now x)).map Entry.name := by
  intro hmem
  obtain ⟨x, hx, hxe⟩ := List.mem_map.1 hmem
  obtain ⟨hxd, hxr⟩ := (mem_filter_removed f now d x).1 hx
  have : x = e := name_inj_of_nodup hn hxd he hxe
  subst this
  rw [hr] at hxr
  exact Bool.noConfusion hxr

theorem removed_mono (f : Faults) {now1 now2 : Int} (h : now1 ≤ now2) (e : Entry)
    (hr : removed f now1 e = true) : removed f now2 e = true := by
  simp only [removed, unlinked, Bool.and_eq_true, Bool.not_eq_true', decide_eq_true_eq] at hr ⊢
  refine ⟨hr.1, ⟨hr.2.1.1, ?_⟩, hr.2.2⟩
  have := hr.2.1.2
  omega

/-- The walk down a chain on which no missing directory is refused: it ends
without a throw, every directory of the chain exists afterwards, nothing is
lost, and nothing outside the chain is created. -/
theorem mkdirChain_ok (refused : DirPath → Bool) :
    ∀ (qs dirs : List DirPath), (∀ q ∈ qs, q ∉ dirs → refused q = false) →
      ∃ dirs1, mkdirChain refused qs dirs = (dirs1, .ok ()) ∧
        (∀ q ∈ qs, q ∈ dirs1) ∧ (∀ q ∈ dirs, q ∈ dirs1) ∧
        (∀ q ∈ dirs1, q ∈ dirs ∨ q ∈ qs) := by
  intro qs
  induction qs with
  | nil => intro dirs _; exact ⟨dirs, rfl, by simp, fun _ h => h, fun _ h => Or.inl h⟩
  | cons q qs ih =>
    intro dirs hok
    by_cases hq : q ∈ dirs
    · obtain ⟨dirs1, hrun, hall, hkeep, hnew⟩ :=
        ih dirs (fun x hx hxd => hok x (List.mem_cons_of_mem _ hx) hxd)
      refine ⟨dirs1, ?_, ?_, hkeep, ?_⟩
      · simp [mkdirChain, hq, hrun]
      · intro x hx
        rcases List.mem_cons.1 hx with h | h
        · rw [h]; exact hkeep q hq
        · exact hall x h
      · intro x hx
        rcases hnew x hx with h | h
        · exact Or.inl h
        · exact Or.inr (List.mem_cons_of_mem _ h)
    · have hr : refused q = false := hok q (List.mem_cons_self _ _) hq
      obtain ⟨dirs1, hrun, hall, hkeep, hnew⟩ :=
        ih (dirs ++ [q]) (fun x hx hxd => hok x (List.mem_cons_of_mem _ hx)
          (fun hmem => hxd (List.mem_append_left _ hmem)))
      refine ⟨dirs1, ?_, ?_, ?_, ?_⟩
      · simp [mkdirChain, hq, hr, hrun]
      · intro x hx
        rcases List.mem_cons.1 hx with h | h
        · rw [h]; exact hkeep q (by simp)
        · exact hall x h
      · intro x hx
        exact hkeep x (List.mem_append_left _ hx)
      · intro x hx
        rcases hnew x hx with h | h
        · rcases List.mem_append.1 h with h1 | h1
          · exact Or.inl h1
          · right
            rw [List.mem_singleton.1 h1]
            exact List.mem_cons_self _ _
        · exact Or.inr (List.mem_cons_of_mem _ h)

/-- The walk loses no directory. -/
theorem mkdirChain_keeps (refused : DirPath → Bool) :
    ∀ (qs dirs : List DirPath), ∀ q ∈ dirs, q ∈ (mkdirChain refused qs dirs).1 := by
  intro qs
  induction qs with
  | nil => intro dirs q hq; exact hq
  | cons a qs ih =>
    intro dirs q hq
    by_cases ha : a ∈ dirs
    · simpa [mkdirChain, ha] using ih dirs q hq
    · by_cases hr : refused a = true
      · simpa [mkdirChain, ha, hr] using hq
      · simpa [mkdirChain, ha, hr] using ih (dirs ++ [a]) q (List.mem_append_left _ hq)

/-- A second walk down the same chain, refused or not, creates nothing. -/
theorem mkdirChain_again (refused : DirPath → Bool) :
    ∀ (qs dirs : List DirPath),
      (mkdirChain refused qs (mkdirChain refused qs dirs).1).1 =
        (mkdirChain refused qs dirs).1 := by
  intro qs
  induction qs with
  | nil => intro dirs; rfl
  | cons a qs ih =>
    intro dirs
    by_cases ha : a ∈ dirs
    · have h1 : mkdirChain refused (a :: qs) dirs = mkdirChain refused qs dirs := by
        simp [mkdirChain, ha]
      have ha1 : a ∈ (mkdirChain refused qs dirs).1 := mkdirChain_keeps refused qs dirs a ha
      rw [h1]
      simpa [mkdirChain, ha1] using ih dirs
    · by_cases hr : refused a = true
      · have h1 : mkdirChain refused (a :: qs) dirs = (dirs, .error .EACCES) := by
          simp [mkdirChain, ha, hr]
        rw [h1, h1]
      · have h1 : mkdirChain refused (a :: qs) dirs = mkdirChain refused qs (dirs ++ [a]) := by
          simp [mkdirChain, ha, hr]
        have ha1 : a ∈ (mkdirChain refused qs (dirs ++ [a])).1 :=
          mkdirChain_keeps refused qs (dirs ++ [a]) a (by simp)
        rw [h1]
        simpa [mkdirChain, ha1] using ih (dirs ++ [a])

/-- The setup block never throws, and a second run of it, refused or not,
leaves the set of directories as the first run left it. -/
theorem ensureDirectory_twice (r : DirPath → Bool) (w : String) (s0 : SetupState)
    (p0 : DirPath) :
    ∃ s1 s2, ensureDirectory r w s0 p0 = .ok s1 ∧ ensureDirectory r w s1 p0 = .ok s2 ∧
      s2.dirs = s1.dirs := by
  have hnothrow : ∀ (s : SetupState), ∃ s1, ensureDirectory r w s p0 = .ok s1 ∧
      s1.dirs = if s.dirs.contains p0 then s.dirs else (mkdirChain r p0.inits s.dirs).1 := by
    intro s
    unfold ensureDirectory existsSync mkdirSyncRecursive
    by_cases hex : s.dirs.contains p0 = true
    · simp only [hex, if_true]; exact ⟨s, rfl, rfl⟩
    · simp only [hex, Bool.false_eq_true, if_false]
      split
      · next dirs heq => exact ⟨_, rfl, by rw [heq]⟩
      · next dirs err heq => exact ⟨_, rfl, by rw [heq]⟩
  obtain ⟨s1, h1, hd1⟩ := hnothrow s0
  obtain ⟨s2, h2, hd2⟩ := hnothrow s1
  refine ⟨s1, s2, h1, h2, ?_⟩
  rw [hd2]
  split
  · rfl
  · rw [hd1]
    split
    · next hc hc0 => rw [hd1, if_pos hc0] at hc; exact absurd hc0 hc
    · exact mkdirChain_again r p0.inits s0.dirs

/-! ## The reclamation cycle -/

/-- C1: on a directory with unique names, when the listing succeeds and `statSync` and
`unlinkSync` succeed on every entry, each entry with `now - mtime > ONE_DAY` is
absent after the cycle: neither the entry nor its name is left. -/
theorem expired_entries_absent (f : Faults) (now : Int) (d : Dir)
    (hn : (d.map Entry.name).Nodup) (hl : f.readdir = false)
    (hs : ∀ e ∈ d, f.stat e.name = false) (hu : ∀ e ∈ d, f.unlink e.name = false) :
    ∃ s, cleanupOldFiles f now d = .ok s ∧
      ∀ e ∈ d, now - e.mtimeMs > ONE_DAY →
        e ∉ s.dir ∧ e.name ∉ s.dir.map Entry.name := by
  obtain ⟨s, hrun, hd, -, -⟩ := cleanupOldFiles_eq f now d hn
  refine ⟨s, hrun, ?_⟩
  intro e he hage
  have hr : removed f now e = true := by
    simp [removed, unlinked, hl, hs e he, hu e he, hage]
  rw [hd]
  exact ⟨fun hmem => by
      have := ((mem_filter_removed f now d e).1 hmem).2
      rw [hr] at this
      exact Bool.noConfusion this,
    name_not_mem_of_removed f now hn he hr⟩

/-- The scenario directory at time 0, without failures. -/
theorem expired_entries_absent_witness :
    ((scenarioDir 0).map Entry.name).Nodup ∧
      ∃ s, cleanupOldFiles noFaults 0 (scenarioDir 0) = .ok s ∧
        ∀ e ∈ scenarioDir 0, (0 : Int) - e.mtimeMs > ONE_DAY →
          e ∉ s.dir ∧ e.name ∉ s.dir.map Entry.name :=
  ⟨by decide, expired_entries_absent noFaults 0 (scenarioDir 0) (by decide) rfl
    (fun _ _ => rfl) (fun _ _ => rfl)⟩

/-- C2: on a directory with unique names, for every `now` and every pattern of
failures, each entry with `now - mtime ≤ ONE_DAY` (age exactly `ONE_DAY` and
an `mtime` in the future included) is still in the directory after the cycle,
and a `statSync` on its name then returns the same entry; the cycle adds and
reorders nothing. -/
theorem fresh_entries_kept (f : Faults) (now : Int) (d : Dir)
    (hn : (d.map Entry.name).Nodup) :
    ∃ s, cleanupOldFiles f now d = .ok s ∧ s.dir.Sublist d ∧
      ∀ e ∈ d, now - e.mtimeMs ≤ ONE_DAY →
        e ∈ s.dir ∧ statSync noFaults s.dir e.name = .ok e := by
  obtain ⟨s, hrun, hd, -, -⟩ := cleanupOldFiles_eq f now d hn
  have hsub : s.dir.Sublist d := by rw [hd]; exact List.filter_sublist _
  refine ⟨s, hrun, hsub, ?_⟩
  intro e he hage
  have hr : removed f now e = false := by
    have : ¬ now - e.mtimeMs > ONE_DAY := by omega
    simp [removed, unlinked, this]
  have hmem : e ∈ s.dir := by
    rw [hd]; exact (mem_filter_removed f now d e).2 ⟨he, hr⟩
  refine ⟨hmem, ?_⟩
  have hn1 : (s.dir.map Entry.name).Nodup := List.Nodup.sublist (List.Sublist.map _ hsub) hn
  rw [statSync_of_mem noFaults hn1 hmem]
  simp [noFaults]

/-- The scenario directory at time 5, without failures. -/
theorem fresh_entries_kept_witness :
    ((scenarioDir 5).map Entry.name).Nodup ∧
      ∃ s, cleanupOldFiles noFaults 5 (scenarioDir 5) = .ok s ∧ s.dir.Sublist (scenarioDir 5) ∧
        ∀ e ∈ scenarioDir 5, (5 : Int) - e.mtimeMs ≤ ONE_DAY →
          e ∈ s.dir ∧ statSync noFaults s.dir e.name = .ok e :=
  ⟨by decide, fresh_entries_kept noFaults 5 (scenarioDir 5) (by decide)⟩

/-- C3: the threshold `ONE_DAY` is 86 400 000 ms, and at every time `now` a cycle
without failures on `a` (25 h old), `b` (23 h old), `c` (exactly 24 h old)
deletes `a` only: the directory is `b`, `c` afterwards and the count is 1. -/
theorem scenario_deletes_a_only :
    ONE_DAY = 86400000 ∧
      ∀ now : Int, cleanupOldFiles noFaults now (scenarioDir now) =
        .ok { dir := [⟨"b", now - hours 23⟩, ⟨"c", now - hours 24⟩],
              console := [.checking 3, .cleanedUp 1],
              deletedCount := 1 } := by
  refine ⟨by decide, ?_⟩
  intro now
  have h25 : now - (now - 90000000) > (86400000 : Int) := by omega
  have h23 : ¬ now - (now - 82800000) > (86400000 : Int) := by omega
  have h24 : ¬ now - (now - 86400000) > (86400000 : Int) := by omega
  simp [cleanupOldFiles, cleanupTry, readdirSync, noFaults, scenarioDir, hours,
    cleanupFile, cleanupFileTry, statSync, unlinkSync, ONE_DAY, List.filter, h25, h23, h24]

/-- C4: on a directory with unique names, a second cycle run on the result of a
first one, at the same time and with the same failures, leaves the directory as
the first cycle left it and deletes nothing. -/
theorem second_cycle_deletes_nothing (f : Faults) (now : Int) (d : Dir)
    (hn : (d.map Entry.name).Nodup) :
    ∃ s1, cleanupOldFiles f now d = .ok s1 ∧
      ∃ s2, cleanupOldFiles f now s1.dir = .ok s2 ∧
        s2.dir = s1.dir ∧ s2.deletedCount = 0 := by
  obtain ⟨s1, hrun1, hd1, -, -⟩ := cleanupOldFiles_eq f now d hn
  have hn1 : (s1.dir.map Entry.name).Nodup := by
    rw [hd1]
    exact List.Nodup.sublist (List.Sublist.map _ (List.filter_sublist _)) hn
  obtain ⟨s2, hrun2, hd2, hc2, -⟩ := cleanupOldFiles_eq f now s1.dir hn1
  refine ⟨s1, hrun1, s2, hrun2, ?_, ?_⟩
  · rw [hd2, List.filter_eq_self]
    intro e he
    rw [hd1] at he
    simp [((mem_filter_removed f now d e).1 he).2]
  · rw [hc2, List.countP_eq_zero]
    intro e he
    rw [hd1] at he
    simp [((mem_filter_removed f now d e).1 he).2]

/-- Two cycles on the scenario directory at time 7. -/
theorem second_cycle_deletes_nothing_witness :
    ((scenarioDir 7).map Entry.name).Nodup ∧
      ∃ s1, cleanupOldFiles noFaults 7 (scenarioDir 7) = .ok s1 ∧
        ∃ s2, cleanupOldFiles noFaults 7 s1.dir = .ok s2 ∧
          s2.dir = s1.dir ∧ s2.deletedCount = 0 :=
  ⟨by decide, second_cycle_deletes_nothing noFaults 7 (scenarioDir 7) (by decide)⟩

/-- C5: on a directory with unique names whose listing succeeds, for every pattern
of `statSync` and `unlinkSync` failures, each entry on which neither call fails
and with `now - mtime > ONE_DAY` is absent after the cycle, wherever the
failing entries stand in the listing. -/
theorem failures_do_not_stop_scan (f : Faults) (now : Int) (d : Dir)
    (hn : (d.map Entry.name).Nodup) (hl : f.readdir = false) :
    ∃ s, cleanupOldFiles f now d = .ok s ∧
      ∀ e ∈ d, f.stat e.name = false → f.unlink e.name = false →
        now - e.mtimeMs > ONE_DAY → e ∉ s.dir ∧ e.name ∉ s.dir.map Entry.name := by
  obtain ⟨s, hrun, hd, -, -⟩ := cleanupOldFiles_eq f now d hn
  refine ⟨s, hrun, ?_⟩
  intro e he hs hu hage
  have hr : removed f now e = true := by
    simp [removed, unlinked, hl, hs, hu, hage]
  rw [hd]
  exact ⟨fun hmem => by
      have := ((mem_filter_removed f now d e).1 hmem).2
      rw [hr] at this
      exact Bool.noConfusion this,
    name_not_mem_of_removed f now hn he hr⟩

/-- A directory whose first file cannot be unlinked, two days on. -/
theorem failures_do_not_stop_scan_witness :
    (lockedFirstDir.map Entry.name).Nodup ∧ (unlinkFailsOn "locked").readdir = false ∧
      ∃ s, cleanupOldFiles (unlinkFailsOn "locked") (hours 48) lockedFirstDir = .ok s ∧
        ∀ e ∈ lockedFirstDir, (unlinkFailsOn "locked").stat e.name = false →
          (unlinkFailsOn "locked").unlink e.name = false →
          hours 48 - e.mtimeMs > ONE_DAY → e ∉ s.dir ∧ e.name ∉ s.dir.map Entry.name :=
  ⟨by decide, rfl,
    failures_do_not_stop_scan (unlinkFailsOn "locked") (hours 48) lockedFirstDir
      (by decide) rfl⟩

/-- The scan goes on after a failure: `unlinkSync` throws on the first file, the
error is logged, and the second file is deleted and counted. -/
theorem delete_after_failed_delete :
    cleanupOldFiles (unlinkFailsOn "locked") (hours 48) lockedFirstDir =
      .ok { dir := [⟨"locked", 0⟩],
            console := [.checking 2, .errorChecking "locked" .EACCES, .cleanedUp 1],
            deletedCount := 1 } := by
  rfl

/-- C6: on a directory with unique names, for every `now` and every pattern of
failures, the call `cleanupOldFiles()` evaluates to `undefined`: no count is
returned.  The counter `deletedCount` of the cycle, which the cycle prints in
its "Cleaned up" line when it is positive, is the number of entries unlinked
with success, is the number of entries gone from the directory, and is the
number of entries before the cycle minus the number after it; an entry whose
`unlinkSync` fails stays and is not counted. -/
theorem deletedCount_logged_not_returned (f : Faults) (now : Int) (d : Dir)
    (hn : (d.map Entry.name).Nodup) :
    cleanupOldFilesReturn f now d = .ok .undefined ∧
      ∃ s, cleanupOldFiles f now d = .ok s ∧
        s.deletedCount = d.countP (removed f now) ∧
        s.deletedCount = d.countP (fun e => decide (e ∉ s.dir)) ∧
        s.deletedCount = d.length - s.dir.length ∧
        s.dir.length + s.deletedCount = d.length ∧
        (∀ e ∈ d, f.unlink e.name = true → removed f now e = false ∧ e ∈ s.dir) ∧
        (0 < s.deletedCount → LogLine.cleanedUp s.deletedCount ∈ s.console) ∧
        (s.deletedCount = 0 → ∀ n, LogLine.cleanedUp n ∉ s.console) := by
  obtain ⟨s, hrun, hd, hc, hlog, hnolog⟩ := cleanupOldFiles_eq f now d hn
  have hlen : s.dir.length + s.deletedCount = d.length := by
    rw [hd, hc, List.length_eq_countP_add_countP (removed f now) d,
      ← List.countP_eq_length_filter, Nat.add_comm]
    congr 1
    apply List.countP_congr
    intro x _
    simp
  refine ⟨by simp [cleanupOldFilesReturn, hrun], s, hrun, hc, ?_, by omega, hlen, ?_, hlog,
    hnolog⟩
  · rw [hc]
    apply List.countP_congr
    intro x hx
    rw [hd]
    simp [List.mem_filter, hx]
  · intro e he hu
    have hr : removed f now e = false := by simp [removed, unlinked, hu]
    rw [hd]
    exact ⟨hr, (mem_filter_removed f now d e).2 ⟨he, hr⟩⟩

/-- The count on a directory whose first file cannot be unlinked. -/
theorem deletedCount_logged_not_returned_witness :
    (lockedFirstDir.map Entry.name).Nodup ∧
      cleanupOldFilesReturn (unlinkFailsOn "locked") (hours 48) lockedFirstDir
        = .ok .undefined ∧
      ∃ s, cleanupOldFiles (unlinkFailsOn "locked") (hours 48) lockedFirstDir = .ok s ∧
        s.deletedCount = lockedFirstDir.countP (removed (unlinkFailsOn "locked") (hours 48)) ∧
        s.deletedCount = lockedFirstDir.countP (fun e => decide (e ∉ s.dir)) ∧
        s.deletedCount = lockedFirstDir.length - s.dir.length ∧
        s.dir.length + s.deletedCount = lockedFirstDir.length ∧
        (∀ e ∈ lockedFirstDir, (unlinkFailsOn "locked").unlink e.name = true →
          removed (unlinkFailsOn "locked") (hours 48) e = false ∧ e ∈ s.dir) ∧
        (0 < s.deletedCount → LogLine.cleanedUp s.deletedCount ∈ s.console) ∧
        (s.deletedCount = 0 → ∀ n, LogLine.cleanedUp n ∉ s.console) :=
  ⟨by decide,
    deletedCount_logged_not_returned (unlinkFailsOn "locked") (hours 48) lockedFirstDir
      (by decide)⟩

/-- The cycle without failures on `a` (25 h old), `b` (23 h old), `c` (24 h old)
at time 0 deletes one entry, three before and two after, and counts 1, yet the
call evaluates to `undefined`, which is not the number 1: the count of deleted
entries is not returned. -/
theorem cleanupOldFiles_returns_no_count :
    ∃ s, cleanupOldFiles noFaults 0 (scenarioDir 0) = .ok s ∧
      (scenarioDir 0).length - s.dir.length = 1 ∧ s.deletedCount = 1 ∧
      cleanupOldFilesReturn noFaults 0 (scenarioDir 0) = .ok .undefined ∧
      cleanupOldFilesReturn noFaults 0 (scenarioDir 0) ≠ .ok (.number 1) := by
  refine ⟨_, rfl, by decide, by decide, rfl, ?_⟩
  intro h
  have h1 : cleanupOldFilesReturn noFaults 0 (scenarioDir 0) = .ok .undefined := rfl
  rw [h1] at h
  exact JSValue.noConfusion (Except.ok.inj h)

/-- C7: for every pattern of failures, listing failure included, the cycle ends
without an exception reaching its caller; and when the listing fails the cycle
deletes nothing, leaves the directory as it was and logs the error. -/
theorem cleanupOldFiles_contains_errors :
    (∀ (f : Faults) (now : Int) (d : Dir), ∃ s, cleanupOldFiles f now d = .ok s) ∧
      ∀ (stat unlink : String → Bool) (now : Int) (d : Dir),
        cleanupOldFiles ⟨true, stat, unlink⟩ now d =
          .ok { dir := d, console := [.errorDuringCleanup .EACCES], deletedCount := 0 } := by
  refine ⟨?_, ?_⟩
  · intro f now d
    unfold cleanupOldFiles
    cases cleanupTry f now d [] with
    | ok s => exact ⟨s, rfl⟩
    | error err => exact ⟨_, rfl⟩
  · intro stat unlink now d
    simp [cleanupOldFiles, cleanupTry, readdirSync]

/-- C9: on a directory with unique names and under the same failures, for times
`now1 ≤ now2` every entry the cycle deletes at `now1` it also deletes at
`now2`, the entries left at `now2` are among those left at `now1`, and the count
at `now1` is at most the count at `now2`. -/
theorem later_cycle_deletes_more (f : Faults) (now1 now2 : Int) (d : Dir)
    (hn : (d.map Entry.name).Nodup) (h : now1 ≤ now2) :
    ∃ s1 s2, cleanupOldFiles f now1 d = .ok s1 ∧ cleanupOldFiles f now2 d = .ok s2 ∧
      (∀ e ∈ d, e ∉ s1.dir → e ∉ s2.dir) ∧
      s2.dir.Sublist s1.dir ∧
      s1.deletedCount ≤ s2.deletedCount := by
  obtain ⟨s1, hrun1, hd1, hc1, -⟩ := cleanupOldFiles_eq f now1 d hn
  obtain ⟨s2, hrun2, hd2, hc2, -⟩ := cleanupOldFiles_eq f now2 d hn
  have hfil : s2.dir = s1.dir.filter (fun x => !removed f now2 x) := by
    rw [hd2, hd1, List.filter_filter]
    apply List.filter_congr
    intro x _
    cases h1 : removed f now1 x
    · simp
    · simp [removed_mono f h x h1]
  refine ⟨s1, s2, hrun1, hrun2, ?_, ?_, ?_⟩
  · intro e _ he1 he2
    rw [hfil] at he2
    exact he1 (List.mem_filter.1 he2).1
  · rw [hfil]; exact List.filter_sublist _
  · rw [hc1, hc2]
    exact List.countP_mono_left (fun x _ hx => removed_mono f h x hx)

/-- The scenario directory at time 0 and two hours later. -/
theorem later_cycle_deletes_more_witness :
    ((scenarioDir 0).map Entry.name).Nodup ∧ (0 : Int) ≤ hours 2 ∧
      ∃ s1 s2, cleanupOldFiles noFaults 0 (scenarioDir 0) = .ok s1 ∧
        cleanupOldFiles noFaults (hours 2) (scenarioDir 0) = .ok s2 ∧
        (∀ e ∈ scenarioDir 0, e ∉ s1.dir → e ∉ s2.dir) ∧
        s2.dir.Sublist s1.dir ∧
        s1.deletedCount ≤ s2.deletedCount :=
  ⟨by decide, by decide,
    later_cycle_deletes_more noFaults 0 (hours 2) (scenarioDir 0) (by decide) (by decide)⟩

/-! ## Directory setup -/

/-- C8: on a set of directories closed under parents, when no missing directory
on the way to `p` is refused, the setup block ends without a throw, `p` and all
of its ancestors exist afterwards, the set is still closed under parents,
nothing that existed is lost, and a second run of the block changes nothing and
does not throw.  Whatever is refused, the block does not let an exception out,
a second run of it leaves the directories as the first left them, and the two
blocks of the server in sequence do not let an exception out either. -/
theorem ensureDirectory_creates_path (refused : DirPath → Bool) (what : String)
    (s : SetupState) (p : DirPath) (hc : ParentClosed s.dirs)
    (hok : ∀ q ∈ p.inits, q ∉ s.dirs → refused q = false) :
    (∃ s1, ensureDirectory refused what s p = .ok s1 ∧
        p ∈ s1.dirs ∧ (∀ q ∈ p.inits, q ∈ s1.dirs) ∧ ParentClosed s1.dirs ∧
        (∀ q ∈ s.dirs, q ∈ s1.dirs) ∧
        ensureDirectory refused what s1 p = .ok s1) ∧
      (∀ (r : DirPath → Bool) (w : String) (s0 : SetupState) (p0 : DirPath),
        ∃ s1 s2, ensureDirectory r w s0 p0 = .ok s1 ∧ ensureDirectory r w s1 p0 = .ok s2 ∧
          s2.dirs = s1.dirs) ∧
      (∀ (r : DirPath → Bool) (dirname : DirPath) (s0 : SetupState),
        ∃ s1, setupDirectories r dirname s0 = .ok s1) := by
  have hnothrow : ∀ (r : DirPath → Bool) (w : String) (s0 : SetupState) (p0 : DirPath),
      ∃ s1, ensureDirectory r w s0 p0 = .ok s1 := by
    intro r w s0 p0
    obtain ⟨s1, _, h1, _⟩ := ensureDirectory_twice r w s0 p0
    exact ⟨s1, h1⟩
  refine ⟨?_, ensureDirectory_twice, ?_⟩
  · have hself : p ∈ p.inits := (List.mem_inits p p).2 (List.prefix_refl p)
    by_cases hex : p ∈ s.dirs
    · have hrun : ensureDirectory refused what s p = .ok s := by
        simp [ensureDirectory, existsSync, hex]
      exact ⟨s, hrun, hex, fun q hq => hc p hex q hq, hc, fun _ h => h, hrun⟩
    · obtain ⟨dirs1, hrun, hall, hkeep, hnew⟩ := mkdirChain_ok refused p.inits s.dirs hok
      refine ⟨{ dirs := dirs1, console := s.console ++ [.created what] }, ?_, hall p hself,
        hall, ?_, hkeep, ?_⟩
      · simp [ensureDirectory, existsSync, hex, mkdirSyncRecursive, hrun]
      · intro x hx y hy
        rcases hnew x hx with h | h
        · exact hkeep y (hc x h y hy)
        · exact hall y ((List.mem_inits y p).2
            (List.IsPrefix.trans ((List.mem_inits y x).1 hy) ((List.mem_inits x p).1 h)))
      · simp [ensureDirectory, existsSync, hall p hself]
  · intro r dirname s0
    unfold setupDirectories
    obtain ⟨s1, h1⟩ := hnothrow r "uploads" s0 (uploadsDir dirname)
    rw [h1]
    exact hnothrow r "temp uploads" s1 _

/-- The block for `srv/uploads/temp` on a filesystem with the root only. -/
theorem ensureDirectory_creates_path_witness :
    ParentClosed rootOnly.dirs ∧
      (∃ s1, ensureDirectory refusesNothing "temp uploads" rootOnly ["srv", "uploads", "temp"]
            = .ok s1 ∧
          ["srv", "uploads", "temp"] ∈ s1.dirs ∧
          (∀ q ∈ (["srv", "uploads", "temp"] : DirPath).inits, q ∈ s1.dirs) ∧
          ParentClosed s1.dirs ∧ (∀ q ∈ rootOnly.dirs, q ∈ s1.dirs) ∧
          ensureDirectory refusesNothing "temp uploads" s1 ["srv", "uploads", "temp"]
            = .ok s1) :=
  ⟨by simp [ParentClosed, rootOnly],
    (ensureDirectory_creates_path refusesNothing "temp uploads" rootOnly
      ["srv", "uploads", "temp"] (by simp [ParentClosed, rootOnly])
      (fun _ _ _ => rfl)).1⟩

/-- The block on a path none of whose parents exist creates the whole chain. -/
theorem ensureDirectory_creates_chain :
    ensureDirectory refusesNothing "temp uploads" rootOnly ["srv", "uploads", "temp"] =
      .ok { dirs := [[], ["srv"], ["srv", "uploads"], ["srv", "uploads", "temp"]],
            console := [.created "temp uploads"] } := by
  rfl

/-- The block when the creation of `srv/uploads` is refused: the error is logged,
nothing is thrown, and what was created before the refusal stays. -/
theorem ensureDirectory_refused :
    ensureDirectory (fun q => q == ["srv", "uploads"]) "temp uploads" rootOnly
        ["srv", "uploads", "temp"] =
      .ok { dirs := [[], ["srv"]],
            console := [.errorCreating "temp uploads" .EACCES] } := by
  rfl

/-- The two blocks of the server started in `/srv` on an empty filesystem: the
first creates `srv` and `srv/uploads`, the second `srv/uploads/temp`. -/
theorem setupDirectories_fresh :
    setupDirectories refusesNothing ["srv"] rootOnly =
      .ok { dirs := [[], ["srv"], ["srv", "uploads"], ["srv", "uploads", "temp"]],
            console := [.created "uploads", .created "temp uploads"] } := by
  rfl

/-! ## Final error handler -/

/-- C10: for every error, the handler answers with status `err.status` when that
is truthy and 500 otherwise, and with `success = false`; under `NODE_ENV =
'production'` the `error` field is `'Internal Server Error'` and the whole
response is the same for every `err.message`; under any other `NODE_ENV`, or
none, the `error` field is `err.message`. -/
theorem finalErrorHandler_response (nodeEnv : Option String) (timestamp : String)
    (err : ErrorObject) :
    (finalErrorHandler nodeEnv timestamp err).status =
        (if err.status.truthy then err.status else .number 500) ∧
      (finalErrorHandler nodeEnv timestamp err).body.success = false ∧
      (finalErrorHandler nodeEnv timestamp err).body.error =
        (if nodeEnv = some "production" then .string "Internal Server Error"
          else err.message) ∧
      (finalErrorHandler nodeEnv timestamp err).body.timestamp = timestamp ∧
      (finalErrorHandler (some "production") timestamp err).body.error =
        .string "Internal Server Error" ∧
      (∀ message : JSValue,
        finalErrorHandler (some "production") timestamp ⟨err.status, message⟩ =
          finalErrorHandler (some "production") timestamp err) := by
  refine ⟨rfl, rfl, rfl, rfl, ?_, ?_⟩
  · simp [finalErrorHandler]
  · intro message
    simp [finalErrorHandler]

/-- The handler on an error without `status` in development and in production. -/
theorem finalErrorHandler_examples :
    finalErrorHandler (some "development") "t" ⟨.undefined, .string "boom"⟩ =
        ⟨.number 500, ⟨false, .string "boom", "t"⟩⟩ ∧
      finalErrorHandler (some "production") "t" ⟨.number 404, .string "boom"⟩ =
        ⟨.number 404, ⟨false, .string "Internal Server Error", "t"⟩⟩ ∧
      finalErrorHandler none "t" ⟨.number 0, .undefined⟩ =
        ⟨.number 500, ⟨false, .undefined, "t"⟩⟩ := by
  decide

end NutriHelp
